import Mathlib

/-!
Shallow embedding of `gogdb/updater/indexdb.py`: the index-rebuild pipeline
(product rows, flattened changelog rows, per-timestamp summary rows, and the
stage-then-atomic-replace publication protocol).
-/

/-! ### Data model (records consumed read-only by the indexer) -/

/-- A bonus descriptor attached to a download change record. -/
structure Bonus where
  bonus_type : String
deriving DecidableEq

/-- Payload of a `download` category change record. -/
structure DownloadRecord where
  dl_type : String
  dl_new_bonus : Option Bonus
  dl_old_bonus : Option Bonus
deriving DecidableEq

/-- Payload of a `property` category change record. -/
structure PropertyRecord where
  property_name : String
deriving DecidableEq

/-- One change record of a product's changelog.  The timestamp is modelled as
an integer instant (the code keys its summary aggregation on the record's
timestamp value and stores that same value in the row). -/
structure ChangeRecord where
  timestamp : Int
  action : String
  category : String
  download_record : Option DownloadRecord
  property_record : Option PropertyRecord
deriving DecidableEq

/-- A catalog product as consumed by `index_product`. -/
structure Product where
  id : Int
  title : String
  image_logo : Option String
  type : String
  comp_systems : List String
  rank_bestselling : Option Int
deriving DecidableEq

/-! ### External collaborators (gogdb.core.normalization) -/

/-- Modelled from the spec: `normalize_search` (gogdb.core.normalization, not
under src/) is an external collaborator producing a deterministic normalized
search key from a title. -/
def normalize_search (title : String) : String :=
  title.toLower

/-- Modelled from the spec: `compress_systems` (gogdb.core.normalization, not
under src/) deterministically compresses the set of supported systems into a
compact storage text. -/
def compress_systems (systems : List String) : String :=
  String.intercalate "," systems

/-! ### Record serialization

Modelled from the spec: the code serializes the full change record with
`json.dumps(record, sort_keys=True, ensure_ascii=False,
default=storage.json_encoder)`; `storage.json_encoder` (gogdb.core.storage)
and the read-side deserializer are not under src/.  The model below follows
the spec's contract for the serializer: a stable textual form with a fixed,
sorted field ordering, raw (non-ASCII preserving) string contents, and full
fidelity so the record can be recovered.  Strings are stored length-prefixed,
numbers in decimal. -/

/-- Decimal value of a digit character. -/
def digitVal (c : Char) : Nat := c.toNat - 48

/-- Decimal digits of `n`, most significant first; the fuel argument only
bounds the recursion depth (any fuel above `n` is enough). -/
def encNatAux : Nat → Nat → List Char
  | 0, _ => []
  | fuel + 1, n =>
    if n < 10 then [Nat.digitChar n]
    else encNatAux fuel (n / 10) ++ [Nat.digitChar (n % 10)]

/-- Encode a natural number in decimal, terminated by a colon. -/
def encNat (n : Nat) : List Char :=
  encNatAux (n + 1) n ++ [':']

/-- Read a decimal number terminated by a colon, accumulating into `a`. -/
def decNat : List Char → Nat → Option (Nat × List Char)
  | [], _ => none
  | c :: cs, a =>
    if c = ':' then some (a, cs)
    else if c.isDigit then decNat cs (10 * a + digitVal c)
    else none

/-- Encode a string as its length followed by its raw characters. -/
def encStr (s : String) : List Char :=
  encNat s.data.length ++ s.data

/-- Decode a length-prefixed string. -/
def decStr (l : List Char) : Option (String × List Char) :=
  match decNat l 0 with
  | some (n, rest) =>
    if n ≤ rest.length then some (⟨rest.take n⟩, rest.drop n) else none
  | none => none

/-- Encode an integer as a sign marker and a decimal magnitude. -/
def encInt (i : Int) : List Char :=
  if i < 0 then '-' :: encNat (-i).toNat else '+' :: encNat i.toNat

/-- Decode a signed integer. -/
def decInt : List Char → Option (Int × List Char)
  | [] => none
  | c :: cs =>
    if c = '-' then (decNat cs 0).map (fun p => (-(p.1 : Int), p.2))
    else if c = '+' then (decNat cs 0).map (fun p => ((p.1 : Int), p.2))
    else none

/-- Encode an optional value with a presence marker. -/
def encOpt (f : α → List Char) : Option α → List Char
  | none => ['N']
  | some x => 'S' :: f x

/-- Decode an optional value by its presence marker. -/
def decOpt (f : List Char → Option (α × List Char)) :
    List Char → Option (Option α × List Char)
  | [] => none
  | c :: cs =>
    if c = 'N' then some (none, cs)
    else if c = 'S' then (f cs).map (fun p => (some p.1, p.2))
    else none

/-- Serialize a bonus descriptor. -/
def encBonus (b : Bonus) : List Char := encStr b.bonus_type

/-- Deserialize a bonus descriptor. -/
def decBonus (l : List Char) : Option (Bonus × List Char) :=
  (decStr l).map (fun p => (⟨p.1⟩, p.2))

/-- Serialize a download payload (fields in sorted name order). -/
def encDownload (d : DownloadRecord) : List Char :=
  encOpt encBonus d.dl_new_bonus ++ encOpt encBonus d.dl_old_bonus ++
    encStr d.dl_type

/-- Deserialize a download payload. -/
def decDownload (l : List Char) : Option (DownloadRecord × List Char) := do
  let (nb, l) ← decOpt decBonus l
  let (ob, l) ← decOpt decBonus l
  let (t, l) ← decStr l
  pure (⟨t, nb, ob⟩, l)

/-- Serialize a property payload. -/
def encProp (p : PropertyRecord) : List Char := encStr p.property_name

/-- Deserialize a property payload. -/
def decProp (l : List Char) : Option (PropertyRecord × List Char) :=
  (decStr l).map (fun p => (⟨p.1⟩, p.2))

/-- Serialize a full change record, fields in sorted name order
(action, category, download_record, property_record, timestamp). -/
def encRecord (r : ChangeRecord) : List Char :=
  encStr r.action ++ encStr r.category ++
    encOpt encDownload r.download_record ++ encOpt encProp r.property_record ++
    encInt r.timestamp

/-- Deserialize a full change record. -/
def decRecord (l : List Char) : Option (ChangeRecord × List Char) := do
  let (action, l) ← decStr l
  let (category, l) ← decStr l
  let (dr, l) ← decOpt decDownload l
  let (pr, l) ← decOpt decProp l
  let (ts, l) ← decInt l
  pure (⟨ts, action, category, dr, pr⟩, l)

/-- The stable textual serialization stored in `serialized_record`. -/
def serializeRecord (r : ChangeRecord) : String := ⟨encRecord r⟩

/-- Recover a change record from its stored textual serialization. -/
def deserializeRecord (s : String) : Option ChangeRecord :=
  match decRecord s.data with
  | some (r, []) => some r
  | _ => none

/-! ### Table rows and the staged store content -/

/-- A row of the `products` table. -/
structure ProductRow where
  product_id : Int
  title : String
  image_logo : Option String
  product_type : String
  comp_systems : String
  sale_rank : Int
  search_title : String
deriving DecidableEq

/-- A row of the `changelog` table.  The three optional columns are unset
unless the record's category populates them (the IndexChange dataclass
defaults them to null). -/
structure ChangelogRow where
  product_id : Int
  product_title : String
  timestamp : Int
  action : String
  category : String
  dl_type : Option String
  bonus_type : Option String
  property_name : Option String
  serialized_record : String
deriving DecidableEq

/-- A row of the `changelog_summary` table. -/
structure SummaryRow where
  product_id : Int
  product_title : String
  timestamp : Int
  categories : String
deriving DecidableEq

/-- Content of the staged index store: the three tables, rows in insertion
order. -/
structure DB where
  products : List ProductRow
  changelog : List ChangelogRow
  changelog_summary : List SummaryRow
deriving DecidableEq

/-- The freshly created store: three empty tables. -/
def emptyDB : DB := ⟨[], [], []⟩

/-! ### index_product -/

/-- The row `index_product` inserts: rank when present, else the sentinel
100000; title normalized for search; systems compressed. -/
def productRow (prod : Product) : ProductRow :=
  let sale_rank : Int :=
    match prod.rank_bestselling with
    | some r => r
    | none => 100000
  { product_id := prod.id
    title := prod.title
    image_logo := prod.image_logo
    product_type := prod.type
    comp_systems := compress_systems prod.comp_systems
    sale_rank := sale_rank
    search_title := normalize_search prod.title }

/-- `index_product`: insert one row into the `products` table. -/
def index_product (prod : Product) (db : DB) : DB :=
  { db with products := db.products ++ [productRow prod] }

/-! ### index_changelog -/

/-- One flattened changelog row for one change record.  Mirrors the
IndexChange construction: common fields always, `dl_type`/`bonus_type` only
for `download` records (new bonus read first, old bonus written last),
`property_name` only for `property` records.  Accessing a missing payload
raises (`.error`), as attribute access on `None` does. -/
def changeRow (prod : Product) (changerec : ChangeRecord) :
    Except String ChangelogRow :=
  let base : ChangelogRow :=
    { product_id := prod.id
      product_title := prod.title
      timestamp := changerec.timestamp
      action := changerec.action
      category := changerec.category
      dl_type := none
      bonus_type := none
      property_name := none
      serialized_record := serializeRecord changerec }
  if changerec.category = "download" then
    match changerec.download_record with
    | none => .error "AttributeError: NoneType has no attribute dl_type"
    | some download_record =>
      let withDl := { base with dl_type := some download_record.dl_type }
      let withNew :=
        match download_record.dl_new_bonus with
        | some nb => { withDl with bonus_type := some nb.bonus_type }
        | none => withDl
      let withOld :=
        match download_record.dl_old_bonus with
        | some ob => { withNew with bonus_type := some ob.bonus_type }
        | none => withNew
      .ok withOld
  else if changerec.category = "property" then
    match changerec.property_record with
    | none => .error "AttributeError: NoneType has no attribute property_name"
    | some property_record =>
      .ok { base with property_name := some property_record.property_name }
  else
    .ok base

/-- The changelog rows inserted by the loop of `index_changelog`, one per
record in order; the first raising record aborts. -/
def indexRows (prod : Product) : List ChangeRecord →
    Except String (List ChangelogRow)
  | [] => .ok []
  | changerec :: rest => do
    let row ← changeRow prod changerec
    let rows ← indexRows prod rest
    .ok (row :: rows)

/-- `summaries[ts].add(cat)` on the defaultdict-of-sets: update the entry in
place if the timestamp is already a key, else append a new key holding the
one-element set. -/
def addCat : List (Int × Finset String) → Int → String →
    List (Int × Finset String)
  | [], ts, cat => [(ts, insert cat ∅)]
  | (t, s) :: rest, ts, cat =>
    if t = ts then (t, insert cat s) :: rest
    else (t, s) :: addCat rest ts cat

/-- The summary aggregation built by the record loop, keys in first-occurrence
order. -/
def summarize (changelog : List ChangeRecord) : List (Int × Finset String) :=
  changelog.foldl (fun acc changerec =>
    addCat acc changerec.timestamp changerec.category) []

/-- One summary row: categories sorted and comma-joined. -/
def summaryRowOf (prod : Product) (p : Int × Finset String) : SummaryRow :=
  { product_id := prod.id
    product_title := prod.title
    timestamp := p.1
    categories := String.intercalate "," (p.2.sort (· ≤ ·)) }

/-- The summary rows flushed at the end of `index_changelog`. -/
def summaryRows (prod : Product) (changelog : List ChangeRecord) :
    List SummaryRow :=
  (summarize changelog).map (summaryRowOf prod)

/-- `index_changelog`: insert one flattened row per change record, then flush
one summary row per distinct timestamp. -/
def index_changelog (prod : Product) (changelog : List ChangeRecord)
    (db : DB) : Except String DB := do
  let rows ← indexRows prod changelog
  .ok { db with
        changelog := db.changelog ++ rows
        changelog_summary :=
          db.changelog_summary ++ summaryRows prod changelog }

/-! ### IndexDbProcessor.process -/

/-- One data bundle streamed to the processor; either payload may be absent. -/
structure Data where
  product : Option Product
  changelog : Option (List ChangeRecord)
deriving DecidableEq

/-- `IndexDbProcessor.process`: skip bundles with no product; index the
product; index the changelog only when present. -/
def process (data : Data) (db : DB) : Except String DB :=
  match data.product with
  | none => .ok db
  | some prod =>
    let db := index_product prod db
    match data.changelog with
    | none => .ok db
    | some changelog => index_changelog prod changelog db

/-- The whole accepting phase: bundles processed strictly in arrival order. -/
def processBundles (bundles : List Data) (db : DB) : Except String DB :=
  match bundles with
  | [] => .ok db
  | data :: rest =>
    match process data db with
    | .ok db2 => processBundles rest db2
    | .error e => .error e

/-! ### init_db: the schema DDL

`init_db` issues six unconditional CREATE statements (no IF NOT EXISTS); a
CREATE whose object name already exists in the store fails, as in SQLite. -/

/-- The schema objects present in a store: table names and index names, in
creation order. -/
structure Schema where
  tables : List String
  indexes : List String
deriving DecidableEq

/-- A store holding no schema objects at all (fresh staging file). -/
def emptySchema : Schema := ⟨[], []⟩

/-- `CREATE TABLE name (...)`: fails when the table already exists. -/
def createTable (sc : Schema) (name : String) : Except String Schema :=
  if name ∈ sc.tables then .error ("table " ++ name ++ " already exists")
  else .ok { sc with tables := sc.tables ++ [name] }

/-- `CREATE INDEX name ON ...`: fails when the index already exists. -/
def createIndex (sc : Schema) (name : String) : Except String Schema :=
  if name ∈ sc.indexes then .error ("index " ++ name ++ " already exists")
  else .ok { sc with indexes := sc.indexes ++ [name] }

/-- `init_db`: create the three tables, then the three lookup indexes. -/
def init_db (sc : Schema) : Except String Schema := do
  let sc ← createTable sc "products"
  let sc ← createTable sc "changelog"
  let sc ← createTable sc "changelog_summary"
  let sc ← createIndex sc "idx_products_sale_rank"
  let sc ← createIndex sc "idx_changelog_timestamp"
  let sc ← createIndex sc "idx_summary_timestamp"
  .ok sc

/-! ### The staging / atomic-replace protocol of IndexDbProcessor

The filesystem is a map from paths to file contents (here: staged store
contents).  A rebuild run is the list of file-level operations the processor
performs: make the parent directory, unlink any stale staging file, the
successive states of the staging file as the connection writes to it, and the
single final `os.replace` onto the live path. -/

/-- The staging path: the live path's name plus the `.part` suffix. -/
def partPath (live : String) : String := live ++ ".part"

/-- `Path.parent`: everything before the final path separator. -/
def parentOf (p : String) : String :=
  String.intercalate "/" ((p.splitOn "/").dropLast)

/-- Files on disk: association of paths to store contents, most recent
binding first. -/
def FS : Type := List (String × DB)

/-- One file-level operation of the rebuild. -/
inductive FsOp
  /-- `mkdir(exist_ok=True)` on the data directory: alters no file. -/
  | mkdirExistOk (p : String)
  /-- `unlink(missing_ok=True)`: remove a file if present. -/
  | unlinkMissingOk (p : String)
  /-- The staging connection persisting content `d` at path `p`. -/
  | write (p : String) (d : DB)
  /-- `os.replace(src, dst)`: atomically move `src` over `dst`. -/
  | replace (src : String) (dst : String)
deriving DecidableEq

/-- Read a file. -/
def fsLookup : FS → String → Option DB
  | [], _ => none
  | (q, d) :: rest, p => if q = p then some d else fsLookup rest p

/-- Remove every binding of a path. -/
def fsErase : FS → String → FS
  | [], _ => []
  | (q, d) :: rest, p =>
    if q = p then fsErase rest p else (q, d) :: fsErase rest p

/-- Bind a path to new content. -/
def fsWrite (fs : FS) (p : String) (d : DB) : FS :=
  (p, d) :: fsErase fs p

/-- The paths whose file content an operation may change.  Creating a
directory changes no file. -/
def touches : FsOp → List String
  | .mkdirExistOk _ => []
  | .unlinkMissingOk p => [p]
  | .write p _ => [p]
  | .replace src dst => [src, dst]

/-- Apply one operation to the filesystem. -/
def runOp (fs : FS) : FsOp → FS
  | .mkdirExistOk _ => fs
  | .unlinkMissingOk p => fsErase fs p
  | .write p d => fsWrite fs p d
  | .replace src dst =>
    match fsLookup fs src with
    | some d => fsWrite (fsErase fs src) dst d
    | none => fs

/-- Apply a list of operations in order. -/
def runOps (fs : FS) (ops : List FsOp) : FS := ops.foldl runOp fs

/-- The successive contents of the staging store while the bundles are
processed: the fresh empty store, then one state per bundle accepted; a
bundle that raises ends the run (the exception propagates). -/
def dbStates : List Data → DB → List DB
  | [], db => [db]
  | data :: rest, db =>
    db :: (match process data db with
           | .ok db2 => dbStates rest db2
           | .error _ => [])

/-- Every file-level operation of one rebuild run, in program order:
`prepare` makes the directory, unlinks the stale staging file and creates the
staging store there; all further writes land on the staging path; `finish`
ends with the single atomic replace onto the live path. -/
def rebuildOps (live : String) (bundles : List Data) : List FsOp :=
  (FsOp.mkdirExistOk (parentOf live) ::
    FsOp.unlinkMissingOk (partPath live) ::
    (dbStates bundles emptyDB).map (FsOp.write (partPath live))) ++
  [FsOp.replace (partPath live) live]

/-! ### Spec-side helper definitions used to state the claims -/

/-- The timestamps keyed by an aggregation association list. -/
def keysOf (acc : List (Int × Finset String)) : List Int := acc.map (·.1)

/-- The category set an aggregation holds for a timestamp (the empty set when
the timestamp is not a key). -/
def lookupCats : List (Int × Finset String) → Int → Finset String
  | [], _ => ∅
  | (t, s) :: rest, ts => if t = ts then s else lookupCats rest ts

/-- As the spec words it: the set of category tags of all records of the list
bearing the given timestamp. -/
def catsAt (changelog : List ChangeRecord) (ts : Int) : Finset String :=
  ((changelog.filter (fun changerec => decide (changerec.timestamp = ts))).map
    (fun changerec => changerec.category)).toFinset

/-- As the spec words it: the comma-joined, sorted, deduplicated category set. -/
def joinSorted (s : Finset String) : String :=
  String.intercalate "," (s.sort (· ≤ ·))

/-! ### Concrete sample inputs (used by the witness theorems) -/

/-- A sample product with no bestseller rank. -/
def tProd : Product :=
  ⟨10, "Foo Bar", some "logo.png", "game", ["windows", "linux"], none⟩

/-- A sample new-bonus descriptor. -/
def tBonusNew : Bonus := ⟨"soundtrack"⟩

/-- A sample old-bonus descriptor. -/
def tBonusOld : Bonus := ⟨"artbook"⟩

/-- A sample download payload carrying both bonus descriptors. -/
def tDl : DownloadRecord := ⟨"bonus", some tBonusNew, some tBonusOld⟩

/-- A sample `download` change record. -/
def tRecD : ChangeRecord := ⟨5, "added", "download", some tDl, none⟩

/-- A sample change record of an unknown category. -/
def tRecO : ChangeRecord := ⟨7, "removed", "galaxy", none, none⟩

/-- The changelog row `tRecD` flattens to. -/
def tRowD : ChangelogRow :=
  ⟨10, "Foo Bar", 5, "added", "download", some "bonus", some "artbook", none,
    serializeRecord tRecD⟩

/-- The changelog row `tRecO` flattens to. -/
def tRowO : ChangelogRow :=
  ⟨10, "Foo Bar", 7, "removed", "galaxy", none, none, none,
    serializeRecord tRecO⟩

/-- A sample data bundle carrying a product and a changelog. -/
def tData : Data := ⟨some tProd, some [tRecD, tRecO]⟩

/-! ## Serializer round trip -/

lemma digitChar_isDigit : ∀ d : Nat, d < 10 → (Nat.digitChar d).isDigit = true := by
  decide

lemma digitChar_ne_colon : ∀ d : Nat, d < 10 → Nat.digitChar d ≠ ':' := by
  decide

lemma digitVal_digitChar : ∀ d : Nat, d < 10 → digitVal (Nat.digitChar d) = d := by
  decide

lemma decNat_cons_digit (c : Char) (cs : List Char) (a : Nat)
    (h1 : c.isDigit = true) (h2 : c ≠ ':') :
    decNat (c :: cs) a = decNat cs (10 * a + digitVal c) := by
  simp [decNat, h1, h2]

lemma decNat_encNatAux :
    ∀ fuel n, n < 10 ^ fuel →
      ∃ B, 0 < B ∧ ∀ a tail,
        decNat (encNatAux fuel n ++ tail) a = decNat tail (a * B + n) := by
  intro fuel
  induction fuel with
  | zero =>
    intro n hn
    have hn0 : n = 0 := by simpa using hn
    refine ⟨1, Nat.one_pos, fun a tail => ?_⟩
    simp [encNatAux, hn0]
  | succ fuel ih =>
    intro n hn
    by_cases h10 : n < 10
    · refine ⟨10, by norm_num, fun a tail => ?_⟩
      simp only [encNatAux, if_pos h10, List.singleton_append]
      rw [decNat_cons_digit _ _ _ (digitChar_isDigit n h10) (digitChar_ne_colon n h10),
        digitVal_digitChar n h10]
      congr 1
      omega
    · have hd : n / 10 < 10 ^ fuel := by
        rw [pow_succ] at hn
        omega
      obtain ⟨B, hB, hrec⟩ := ih (n / 10) hd
      refine ⟨10 * B, by positivity, fun a tail => ?_⟩
      have hm : n % 10 < 10 := Nat.mod_lt _ (by norm_num)
      simp only [encNatAux, if_neg h10]
      rw [List.append_assoc, List.singleton_append, hrec,
        decNat_cons_digit _ _ _ (digitChar_isDigit _ hm) (digitChar_ne_colon _ hm),
        digitVal_digitChar _ hm]
      have harith : 10 * (a * B + n / 10) + n % 10 = a * (10 * B) + n := by
        have hdm : 10 * (n / 10) + n % 10 = n := Nat.div_add_mod n 10
        calc 10 * (a * B + n / 10) + n % 10
            = a * (10 * B) + (10 * (n / 10) + n % 10) := by ring
          _ = a * (10 * B) + n := by rw [hdm]
      rw [harith]

lemma lt_pow_ten_succ (n : Nat) : n < 10 ^ (n + 1) := by
  induction n with
  | zero => norm_num
  | succ n ih =>
    rw [pow_succ]
    omega

lemma decNat_encNat (n : Nat) (rest : List Char) :
    decNat (encNat n ++ rest) 0 = some (n, rest) := by
  obtain ⟨B, hB, h⟩ := decNat_encNatAux (n + 1) n (lt_pow_ten_succ n)
  have h2 := h 0 (':' :: rest)
  simp only [encNat, List.append_assoc, List.singleton_append]
  rw [h2]
  simp [decNat]

lemma decStr_encStr (s : String) (rest : List Char) :
    decStr (encStr s ++ rest) = some (s, rest) := by
  unfold encStr decStr
  rw [List.append_assoc, decNat_encNat]
  have hle : s.data.length ≤ (s.data ++ rest).length := by
    simp [List.length_append]
  simp only [hle, if_pos, List.take_left, List.drop_left]

lemma decInt_encInt (i : Int) (rest : List Char) :
    decInt (encInt i ++ rest) = some (i, rest) := by
  unfold encInt
  by_cases h : i < 0
  · rw [if_pos h]
    simp only [List.cons_append, decInt, if_pos rfl]
    rw [decNat_encNat]
    have hto : ((-i).toNat : Int) = -i := Int.toNat_of_nonneg (by omega)
    simp [hto]
  · rw [if_neg h]
    have hne : ('+' : Char) ≠ '-' := by decide
    simp only [List.cons_append, decInt, if_neg hne, if_pos rfl]
    rw [decNat_encNat]
    have hto : (i.toNat : Int) = i := Int.toNat_of_nonneg (by omega)
    simp [hto]

lemma decOpt_encOpt (f : α → List Char) (g : List Char → Option (α × List Char))
    (hf : ∀ x rest, g (f x ++ rest) = some (x, rest)) (o : Option α)
    (rest : List Char) :
    decOpt g (encOpt f o ++ rest) = some (o, rest) := by
  cases o with
  | none => simp [encOpt, decOpt]
  | some x =>
    have hne : ('S' : Char) ≠ 'N' := by decide
    simp [encOpt, decOpt, hne, hf]

lemma decBonus_encBonus (b : Bonus) (rest : List Char) :
    decBonus (encBonus b ++ rest) = some (b, rest) := by
  simp [encBonus, decBonus, decStr_encStr]

lemma decProp_encProp (p : PropertyRecord) (rest : List Char) :
    decProp (encProp p ++ rest) = some (p, rest) := by
  simp [encProp, decProp, decStr_encStr]

lemma decDownload_encDownload (d : DownloadRecord) (rest : List Char) :
    decDownload (encDownload d ++ rest) = some (d, rest) := by
  simp only [encDownload, decDownload, List.append_assoc,
    decOpt_encOpt encBonus decBonus decBonus_encBonus, decStr_encStr,
    Option.bind_eq_bind, Option.some_bind, bind, Option.bind_some]
  rfl

lemma decRecord_encRecord (r : ChangeRecord) (rest : List Char) :
    decRecord (encRecord r ++ rest) = some (r, rest) := by
  simp only [encRecord, decRecord, List.append_assoc, decStr_encStr,
    decOpt_encOpt encDownload decDownload decDownload_encDownload,
    decOpt_encOpt encProp decProp decProp_encProp, decInt_encInt,
    Option.bind_eq_bind, Option.some_bind, bind, Option.bind_some]
  rfl

lemma deserializeRecord_serializeRecord (r : ChangeRecord) :
    deserializeRecord (serializeRecord r) = some r := by
  unfold deserializeRecord serializeRecord
  have h := decRecord_encRecord r []
  rw [List.append_nil] at h
  rw [h]

/-! ## Flattened row construction -/

lemma changeRow_ok_fields {prod : Product} {r : ChangeRecord} {row : ChangelogRow}
    (h : changeRow prod r = .ok row) :
    row.product_id = prod.id ∧ row.product_title = prod.title ∧
    row.timestamp = r.timestamp ∧ row.action = r.action ∧
    row.category = r.category ∧ row.serialized_record = serializeRecord r := by
  simp only [changeRow] at h
  split at h
  · cases hdr : r.download_record with
    | none => rw [hdr] at h; exact absurd h (by simp)
    | some d =>
      rw [hdr] at h
      rcases d with ⟨dlt, nb, ob⟩
      cases nb <;> cases ob <;>
        simp only [Except.ok.injEq] at h <;> subst h <;> simp
  · split at h
    · cases hpr : r.property_record with
      | none => rw [hpr] at h; exact absurd h (by simp)
      | some p =>
        rw [hpr] at h
        simp only [Except.ok.injEq] at h
        subst h
        simp
    · simp only [Except.ok.injEq] at h
      subst h
      simp

/-- C3: `index_product` writes exactly one row; its `sale_rank` is the
product's bestseller rank when present, and the sentinel 100000 when the rank
is absent. -/
theorem c3_sale_rank_sentinel (prod : Product) (db : DB) :
    (index_product prod db).products = db.products ++ [productRow prod] ∧
    (productRow prod).sale_rank = prod.rank_bestselling.getD 100000 := by
  refine ⟨rfl, ?_⟩
  cases h : prod.rank_bestselling <;> simp [productRow, h]

/-- C4: for a `download` record, `bonus_type` is taken from the new bonus
descriptor when only it is present, from the old one when only it is present,
from the old one (written last) when both are present, and stays unset when
neither is present. -/
theorem c4_bonus_type_resolution (prod : Product) (r : ChangeRecord)
    (dr : DownloadRecord) (row : ChangelogRow)
    (hcat : r.category = "download") (hdr : r.download_record = some dr)
    (h : changeRow prod r = .ok row) :
    (dr.dl_new_bonus = none → dr.dl_old_bonus = none → row.bonus_type = none) ∧
    (∀ nb, dr.dl_new_bonus = some nb → dr.dl_old_bonus = none →
      row.bonus_type = some nb.bonus_type) ∧
    (∀ ob, dr.dl_new_bonus = none → dr.dl_old_bonus = some ob →
      row.bonus_type = some ob.bonus_type) ∧
    (∀ nb ob, dr.dl_new_bonus = some nb → dr.dl_old_bonus = some ob →
      row.bonus_type = some ob.bonus_type) := by
  simp only [changeRow, hcat, hdr, if_pos] at h
  rcases dr with ⟨dlt, nb, ob⟩
  cases nb <;> cases ob <;>
    simp only [Except.ok.injEq] at h <;> subst h <;>
    refine ⟨?_, ?_, ?_, ?_⟩ <;> intros <;> simp_all

/-- C7: the stored `serialized_record` is the record's stable textual
serialization and deserializes back to a value equal to the original
record. -/
theorem c7_serialized_roundtrip (prod : Product) (r : ChangeRecord)
    (row : ChangelogRow) (h : changeRow prod r = .ok row) :
    row.serialized_record = serializeRecord r ∧
    deserializeRecord row.serialized_record = some r := by
  have hf := (changeRow_ok_fields h).2.2.2.2.2
  exact ⟨hf, by rw [hf]; exact deserializeRecord_serializeRecord r⟩

/-- C5: `process` skips bundles with no product entirely, indexes just the
product when no changelog is present, and indexes product then changelog when
both are present; absent inputs never raise. -/
theorem c5_process_cases (data : Data) (db : DB) :
    (data.product = none → process data db = .ok db) ∧
    (∀ prod, data.product = some prod → data.changelog = none →
      process data db =
        .ok { db with products := db.products ++ [productRow prod] }) ∧
    (∀ prod changelog, data.product = some prod →
      data.changelog = some changelog →
      process data db = index_changelog prod changelog (index_product prod db)) := by
  refine ⟨?_, ?_, ?_⟩ <;> intros <;> simp_all [process, index_product]

/-- C8 (amended): `init_db` on an empty staging store succeeds and creates
exactly the three tables and the three lookup indexes. -/
theorem c8_schema_creation :
    init_db emptySchema =
      .ok ⟨["products", "changelog", "changelog_summary"],
        ["idx_products_sale_rank", "idx_changelog_timestamp",
          "idx_summary_timestamp"]⟩ := rfl

/-- C8 counterexample: `init_db` is not idempotent: running it a second time
on the store it just initialized fails, because `CREATE TABLE` is issued
without `IF NOT EXISTS`. -/
theorem c8_second_call_fails :
    init_db emptySchema =
      .ok ⟨["products", "changelog", "changelog_summary"],
        ["idx_products_sale_rank", "idx_changelog_timestamp",
          "idx_summary_timestamp"]⟩ ∧
    init_db ⟨["products", "changelog", "changelog_summary"],
        ["idx_products_sale_rank", "idx_changelog_timestamp",
          "idx_summary_timestamp"]⟩ =
      .error "table products already exists" := ⟨rfl, rfl⟩

/-! ## The timestamp-keyed summary aggregation -/

lemma keysOf_nil : keysOf [] = [] := rfl

lemma keysOf_cons (t : Int) (s : Finset String)
    (rest : List (Int × Finset String)) :
    keysOf ((t, s) :: rest) = t :: keysOf rest := rfl

lemma lookupCats_addCat (acc : List (Int × Finset String)) (ts : Int)
    (cat : String) (ts' : Int) :
    lookupCats (addCat acc ts cat) ts' =
      if ts' = ts then insert cat (lookupCats acc ts)
      else lookupCats acc ts' := by
  induction acc with
  | nil =>
    by_cases h : ts' = ts
    · simp [addCat, lookupCats, h]
    · simp [addCat, lookupCats, h, Ne.symm h]
  | cons head rest ih =>
    obtain ⟨t, s⟩ := head
    by_cases hts : t = ts
    · subst hts
      by_cases h' : ts' = t
      · simp [addCat, lookupCats, h']
      · simp [addCat, lookupCats, h', Ne.symm h']
    · by_cases h' : ts' = t
      · subst h'
        simp [addCat, lookupCats, hts, Ne.symm hts]
      · simp [addCat, lookupCats, hts, Ne.symm h', ih]

lemma mem_keysOf_addCat (acc : List (Int × Finset String)) (ts : Int)
    (cat : String) (ts' : Int) :
    ts' ∈ keysOf (addCat acc ts cat) ↔ ts' ∈ keysOf acc ∨ ts' = ts := by
  induction acc with
  | nil => simp [addCat, keysOf]
  | cons head rest ih =>
    obtain ⟨t, s⟩ := head
    by_cases hts : t = ts
    · subst hts
      have hstep : addCat ((t, s) :: rest) t cat = (t, insert cat s) :: rest := by
        simp [addCat]
      rw [hstep, keysOf_cons, keysOf_cons]
      simp only [List.mem_cons]
      tauto
    · have hstep : addCat ((t, s) :: rest) ts cat =
          (t, s) :: addCat rest ts cat := by
        simp [addCat, hts]
      rw [hstep, keysOf_cons, keysOf_cons]
      simp only [List.mem_cons, ih]
      tauto

lemma nodup_keysOf_addCat (acc : List (Int × Finset String)) (ts : Int)
    (cat : String) (h : (keysOf acc).Nodup) :
    (keysOf (addCat acc ts cat)).Nodup := by
  induction acc with
  | nil => simp [addCat, keysOf]
  | cons head rest ih =>
    obtain ⟨t, s⟩ := head
    rw [keysOf_cons, List.nodup_cons] at h
    by_cases hts : t = ts
    · subst hts
      have hstep : addCat ((t, s) :: rest) t cat = (t, insert cat s) :: rest := by
        simp [addCat]
      rw [hstep, keysOf_cons, List.nodup_cons]
      exact h
    · have hstep : addCat ((t, s) :: rest) ts cat =
          (t, s) :: addCat rest ts cat := by
        simp [addCat, hts]
      rw [hstep, keysOf_cons, List.nodup_cons]
      refine ⟨?_, ih h.2⟩
      rw [mem_keysOf_addCat]
      push_neg
      exact ⟨h.1, hts⟩

lemma catsAt_nil (ts : Int) : catsAt [] ts = ∅ := rfl

lemma catsAt_cons (r : ChangeRecord) (l : List ChangeRecord) (ts : Int) :
    catsAt (r :: l) ts =
      if r.timestamp = ts then insert r.category (catsAt l ts)
      else catsAt l ts := by
  by_cases h : r.timestamp = ts
  · simp [catsAt, List.filter_cons, h]
  · simp [catsAt, List.filter_cons, h]

lemma lookupCats_foldl (l : List ChangeRecord) :
    ∀ (acc : List (Int × Finset String)) (ts : Int),
      lookupCats (l.foldl (fun acc changerec =>
          addCat acc changerec.timestamp changerec.category) acc) ts =
        lookupCats acc ts ∪ catsAt l ts := by
  induction l with
  | nil =>
    intro acc ts
    simp [catsAt_nil]
  | cons r l ih =>
    intro acc ts
    rw [List.foldl_cons, ih, lookupCats_addCat, catsAt_cons]
    by_cases h : ts = r.timestamp
    · subst h
      rw [if_pos rfl, if_pos rfl, Finset.insert_union, Finset.union_insert]
    · rw [if_neg h, if_neg (fun e => h e.symm)]

lemma mem_keysOf_foldl (l : List ChangeRecord) :
    ∀ (acc : List (Int × Finset String)) (ts : Int),
      ts ∈ keysOf (l.foldl (fun acc changerec =>
          addCat acc changerec.timestamp changerec.category) acc) ↔
        ts ∈ keysOf acc ∨ ts ∈ l.map ChangeRecord.timestamp := by
  induction l with
  | nil =>
    intro acc ts
    simp
  | cons r l ih =>
    intro acc ts
    rw [List.foldl_cons, ih, mem_keysOf_addCat]
    simp only [List.map_cons, List.mem_cons]
    tauto

lemma nodup_keysOf_foldl (l : List ChangeRecord) :
    ∀ (acc : List (Int × Finset String)),
      (keysOf acc).Nodup →
      (keysOf (l.foldl (fun acc changerec =>
          addCat acc changerec.timestamp changerec.category) acc)).Nodup := by
  induction l with
  | nil => intro acc h; exact h
  | cons r l ih =>
    intro acc h
    rw [List.foldl_cons]
    exact ih _ (nodup_keysOf_addCat _ _ _ h)

lemma lookupCats_summarize (l : List ChangeRecord) (ts : Int) :
    lookupCats (summarize l) ts = catsAt l ts := by
  have h := lookupCats_foldl l [] ts
  simpa [summarize, lookupCats] using h

lemma mem_keysOf_summarize (l : List ChangeRecord) (ts : Int) :
    ts ∈ keysOf (summarize l) ↔ ts ∈ l.map ChangeRecord.timestamp := by
  have h := mem_keysOf_foldl l [] ts
  simpa [summarize, keysOf] using h

lemma nodup_keysOf_summarize (l : List ChangeRecord) :
    (keysOf (summarize l)).Nodup :=
  nodup_keysOf_foldl l [] (by simp [keysOf])

lemma assoc_eq_keys_map (acc : List (Int × Finset String))
    (h : (keysOf acc).Nodup) :
    acc = (keysOf acc).map (fun ts => (ts, lookupCats acc ts)) := by
  induction acc with
  | nil => rfl
  | cons head rest ih =>
    obtain ⟨t, s⟩ := head
    rw [keysOf_cons, List.nodup_cons] at h
    rw [keysOf_cons, List.map_cons]
    have hcongr : ∀ ts ∈ keysOf rest,
        (ts, lookupCats ((t, s) :: rest) ts) = (ts, lookupCats rest ts) := by
      intro ts hts
      have hne : t ≠ ts := fun e => h.1 (e ▸ hts)
      simp [lookupCats, hne]
    rw [List.map_congr_left hcongr, ← ih h.2]
    simp [lookupCats]

lemma summaryRows_eq_map_keys (prod : Product) (l : List ChangeRecord) :
    summaryRows prod l = (keysOf (summarize l)).map
      (fun ts => summaryRowOf prod (ts, catsAt l ts)) := by
  unfold summaryRows
  conv_lhs => rw [assoc_eq_keys_map (summarize l) (nodup_keysOf_summarize l)]
  rw [List.map_map]
  apply List.map_congr_left
  intro ts hts
  simp [Function.comp, lookupCats_summarize]

lemma summaryRows_timestamps (prod : Product) (l : List ChangeRecord) :
    (summaryRows prod l).map SummaryRow.timestamp = keysOf (summarize l) := by
  rw [summaryRows_eq_map_keys, List.map_map]
  have : (SummaryRow.timestamp ∘ fun ts => summaryRowOf prod (ts, catsAt l ts)) =
      fun ts => ts := by
    funext ts
    simp [summaryRowOf]
  rw [this, List.map_id']

lemma catsAt_perm {l l' : List ChangeRecord} (h : l.Perm l') (ts : Int) :
    catsAt l ts = catsAt l' ts :=
  List.toFinset_eq_of_perm _ _
    ((h.filter (fun changerec => decide (changerec.timestamp = ts))).map
      (fun changerec => changerec.category))

lemma summaryRows_perm (prod : Product) {l l' : List ChangeRecord}
    (h : l.Perm l') :
    (summaryRows prod l).Perm (summaryRows prod l') := by
  have hkeys : (keysOf (summarize l)).Perm (keysOf (summarize l')) := by
    apply List.perm_of_nodup_nodup_toFinset_eq (nodup_keysOf_summarize l)
      (nodup_keysOf_summarize l')
    ext ts
    simp only [List.mem_toFinset, mem_keysOf_summarize]
    exact (h.map ChangeRecord.timestamp).mem_iff
  rw [summaryRows_eq_map_keys prod l, summaryRows_eq_map_keys prod l']
  have hmap := hkeys.map (fun ts => summaryRowOf prod (ts, catsAt l ts))
  have hfun : (fun ts => summaryRowOf prod (ts, catsAt l ts)) =
      (fun ts => summaryRowOf prod (ts, catsAt l' ts)) := by
    funext ts
    rw [catsAt_perm h]
  rw [← hfun]
  exact hmap

lemma index_changelog_ok {prod : Product} {l : List ChangeRecord} {db db' : DB}
    (h : index_changelog prod l db = .ok db') :
    ∃ rows, indexRows prod l = .ok rows ∧
      db' = { db with
        changelog := db.changelog ++ rows
        changelog_summary := db.changelog_summary ++ summaryRows prod l } := by
  cases hrows : indexRows prod l with
  | error e =>
    unfold index_changelog at h
    rw [hrows] at h
    exact absurd h (by simp [Bind.bind, Except.bind])
  | ok rows =>
    unfold index_changelog at h
    rw [hrows] at h
    simp only [Bind.bind, Except.bind, Except.ok.injEq] at h
    exact ⟨rows, rfl, h.symm⟩

/-- C2: `index_changelog` emits exactly one summary row per distinct
timestamp of the records; that row's `categories` equals the comma-joined,
sorted, deduplicated set of category tags of the records bearing that
timestamp; and the emitted summary rows are permutation-invariant in the
input record list. -/
theorem c2_summary_per_timestamp (prod : Product) (changelog : List ChangeRecord)
    (db db' : DB) (h : index_changelog prod changelog db = .ok db') :
    db'.changelog_summary = db.changelog_summary ++ summaryRows prod changelog ∧
    ((summaryRows prod changelog).map SummaryRow.timestamp).Nodup ∧
    (∀ ts, ts ∈ (summaryRows prod changelog).map SummaryRow.timestamp ↔
      ts ∈ changelog.map ChangeRecord.timestamp) ∧
    (∀ row ∈ summaryRows prod changelog,
      row.categories = joinSorted (catsAt changelog row.timestamp)) ∧
    (∀ changelog', changelog.Perm changelog' →
      (summaryRows prod changelog).Perm (summaryRows prod changelog')) := by
  obtain ⟨rows, hrows, hdb⟩ := index_changelog_ok h
  refine ⟨by rw [hdb], ?_, ?_, ?_, fun l' hp => summaryRows_perm prod hp⟩
  · rw [summaryRows_timestamps]
    exact nodup_keysOf_summarize changelog
  · intro ts
    rw [summaryRows_timestamps]
    exact mem_keysOf_summarize changelog ts
  · intro row hrow
    rw [summaryRows_eq_map_keys] at hrow
    obtain ⟨ts, hts, hrow⟩ := List.mem_map.mp hrow
    subst hrow
    simp [summaryRowOf, joinSorted]

/-- C6: the rebuild pipeline is deterministic: two runs over the identical
bundle sequence yield the same result store, hence identical row sets in all
three tables; and the summary construction does not depend on any iteration
order: permuted record lists give permuted summary rows and the identical
sorted categories string at every timestamp. -/
theorem c6_deterministic_rebuild (bundles : List Data) (r1 r2 : Except String DB)
    (h1 : r1 = processBundles bundles emptyDB)
    (h2 : r2 = processBundles bundles emptyDB) :
    r1 = r2 ∧
    (∀ (prod : Product) (l l' : List ChangeRecord), l.Perm l' →
      (summaryRows prod l).Perm (summaryRows prod l') ∧
      ∀ ts, joinSorted (lookupCats (summarize l) ts) =
        joinSorted (lookupCats (summarize l') ts)) := by
  refine ⟨h1.trans h2.symm, fun prod l l' hp => ⟨summaryRows_perm prod hp, ?_⟩⟩
  intro ts
  rw [lookupCats_summarize, lookupCats_summarize, catsAt_perm hp]

/-- C9: a record whose category is neither `download` nor `property` is still
indexed: its row carries exactly the common fields with `dl_type`,
`bonus_type` and `property_name` all unset, and its category still enters the
summary aggregation for its timestamp. -/
theorem c9_other_category (prod : Product) (r : ChangeRecord)
    (h1 : r.category ≠ "download") (h2 : r.category ≠ "property") :
    changeRow prod r = .ok
      { product_id := prod.id
        product_title := prod.title
        timestamp := r.timestamp
        action := r.action
        category := r.category
        dl_type := none
        bonus_type := none
        property_name := none
        serialized_record := serializeRecord r } ∧
    ∀ changelog, r ∈ changelog →
      r.category ∈ lookupCats (summarize changelog) r.timestamp := by
  constructor
  · simp [changeRow, h1, h2]
  · intro changelog hmem
    rw [lookupCats_summarize]
    unfold catsAt
    rw [List.mem_toFinset, List.mem_map]
    refine ⟨r, ?_, rfl⟩
    rw [List.mem_filter]
    simp [hmem]

lemma indexRows_forall₂ {prod : Product} :
    ∀ {l : List ChangeRecord} {rows : List ChangelogRow},
      indexRows prod l = .ok rows →
      List.Forall₂ (fun changerec row => changeRow prod changerec = .ok row)
        l rows := by
  intro l
  induction l with
  | nil =>
    intro rows h
    simp only [indexRows, Except.ok.injEq] at h
    subst h
    exact List.Forall₂.nil
  | cons r rest ih =>
    intro rows h
    unfold indexRows at h
    cases hc : changeRow prod r with
    | error e => rw [hc] at h; exact absurd h (by simp [Bind.bind, Except.bind])
    | ok row =>
      rw [hc] at h
      cases hrs : indexRows prod rest with
      | error e =>
        rw [hrs] at h
        exact absurd h (by simp [Bind.bind, Except.bind])
      | ok rs =>
        rw [hrs] at h
        simp only [Bind.bind, Except.bind, Except.ok.injEq] at h
        subst h
        exact List.Forall₂.cons hc (ih hrs)

lemma forall₂_mem_right {α β : Type} {R : α → β → Prop} :
    ∀ {l1 : List α} {l2 : List β}, List.Forall₂ R l1 l2 → ∀ b ∈ l2,
      ∃ a ∈ l1, R a b := by
  intro l1 l2 h
  induction h with
  | nil => intro b hb; exact absurd hb (by simp)
  | cons hr _ ih =>
    intro b hb
    rcases List.mem_cons.mp hb with hb | hb
    · exact ⟨_, List.mem_cons_self _ _, hb ▸ hr⟩
    · obtain ⟨a, ha, hab⟩ := ih b hb
      exact ⟨a, List.mem_cons_of_mem _ ha, hab⟩

/-- C10: `index_changelog` inserts exactly one changelog row per input record,
in order, none dropped or duplicated, and every row carries the product's id
and title, denormalized from the product. -/
theorem c10_one_row_per_record (prod : Product) (changelog : List ChangeRecord)
    (db db' : DB) (h : index_changelog prod changelog db = .ok db') :
    ∃ rows, indexRows prod changelog = .ok rows ∧
      db'.changelog = db.changelog ++ rows ∧
      rows.length = changelog.length ∧
      List.Forall₂ (fun changerec row => changeRow prod changerec = .ok row)
        changelog rows ∧
      ∀ row ∈ rows, row.product_id = prod.id ∧
        row.product_title = prod.title := by
  obtain ⟨rows, hrows, hdb⟩ := index_changelog_ok h
  have hf := indexRows_forall₂ hrows
  refine ⟨rows, hrows, by rw [hdb], hf.length_eq.symm, hf, ?_⟩
  intro row hrow
  obtain ⟨changerec, _, hcr⟩ := forall₂_mem_right hf row hrow
  have := changeRow_ok_fields hcr
  exact ⟨this.1, this.2.1⟩

/-! ## Staging discipline and atomic publication -/

lemma partPath_ne (live : String) : partPath live ≠ live := by
  intro h
  have hlen := congrArg String.length h
  rw [partPath, String.length_append] at hlen
  have h5 : (".part" : String).length = 5 := rfl
  omega

lemma fsLookup_fsErase_ne (fs : FS) (p q : String) (h : q ≠ p) :
    fsLookup (fsErase fs p) q = fsLookup fs q := by
  induction fs with
  | nil => rfl
  | cons e rest ih =>
    obtain ⟨pp, d⟩ := e
    by_cases hp : pp = p
    · subst hp
      have hq : pp ≠ q := fun e => h e.symm
      simp [fsErase, fsLookup, hq, ih]
    · by_cases hq : pp = q
      · subst hq
        simp [fsErase, fsLookup, hp]
      · simp [fsErase, fsLookup, hp, hq, ih]

lemma fsLookup_runOp_not_touched (fs : FS) (op : FsOp) (q : String)
    (h : q ∉ touches op) :
    fsLookup (runOp fs op) q = fsLookup fs q := by
  cases op with
  | mkdirExistOk p => rfl
  | unlinkMissingOk p =>
    simp only [touches, List.mem_singleton] at h
    exact fsLookup_fsErase_ne fs p q h
  | write p d =>
    simp only [touches, List.mem_singleton] at h
    have hp : p ≠ q := fun e => h e.symm
    simp only [runOp, fsWrite, fsLookup, if_neg hp]
    exact fsLookup_fsErase_ne fs p q h
  | replace src dst =>
    simp only [touches, List.mem_cons, List.mem_singleton] at h
    push_neg at h
    obtain ⟨h1, h2, -⟩ := h
    simp only [runOp]
    cases hl : fsLookup fs src with
    | none => rfl
    | some d =>
      have hd : dst ≠ q := fun e => h2 e.symm
      simp only [fsWrite, fsLookup, if_neg hd]
      rw [fsLookup_fsErase_ne _ _ _ h2, fsLookup_fsErase_ne _ _ _ h1]

lemma fsLookup_runOps_not_touched (ops : List FsOp) :
    ∀ (fs : FS) (q : String), (∀ op ∈ ops, q ∉ touches op) →
      fsLookup (runOps fs ops) q = fsLookup fs q := by
  induction ops with
  | nil => intro fs q _; rfl
  | cons op rest ih =>
    intro fs q h
    have hstep : runOps fs (op :: rest) = runOps (runOp fs op) rest := rfl
    rw [hstep, ih (runOp fs op) q (fun o ho => h o (List.mem_cons_of_mem _ ho))]
    exact fsLookup_runOp_not_touched fs op q (h op (List.mem_cons_self _ _))

lemma take_append_le {α : Type} (l1 l2 : List α) (n : Nat)
    (h : n ≤ l1.length) : (l1 ++ l2).take n = l1.take n :=
  List.take_eq_left_iff.mpr (Or.inr h)

lemma rebuildOps_prefix_safe (live : String) (bundles : List Data) :
    ∀ op ∈ (FsOp.mkdirExistOk (parentOf live) ::
      FsOp.unlinkMissingOk (partPath live) ::
      (dbStates bundles emptyDB).map (FsOp.write (partPath live))),
      live ∉ touches op := by
  intro op hop
  rcases List.mem_cons.mp hop with hop | hop
  · subst hop; simp [touches]
  rcases List.mem_cons.mp hop with hop | hop
  · subst hop
    simp only [touches, List.mem_singleton]
    exact fun e => partPath_ne live e.symm
  · obtain ⟨d, _, hop⟩ := List.mem_map.mp hop
    subst hop
    simp only [touches, List.mem_singleton]
    exact fun e => partPath_ne live e.symm

/-- C1: any run interrupted (or failing) strictly before the final atomic
replace leaves the live path's content untouched: every operation before the
last never touches the live path (all writes land on the staging path), and
the one operation that touches the live path is the single trailing
`os.replace` of `finish`. -/
theorem c1_live_store_untouched (fs : FS) (live : String) (bundles : List Data)
    (n : Nat) (hn : n < (rebuildOps live bundles).length) :
    fsLookup (runOps fs ((rebuildOps live bundles).take n)) live =
      fsLookup fs live ∧
    (rebuildOps live bundles).getLast? =
      some (FsOp.replace (partPath live) live) ∧
    ∀ op ∈ (rebuildOps live bundles).dropLast, live ∉ touches op := by
  refine ⟨?_, ?_, ?_⟩
  · have hlen : n ≤ (FsOp.mkdirExistOk (parentOf live) ::
        FsOp.unlinkMissingOk (partPath live) ::
        (dbStates bundles emptyDB).map (FsOp.write (partPath live))).length := by
      rw [rebuildOps, List.length_append] at hn
      simpa using Nat.lt_succ_iff.mp hn
    rw [rebuildOps, take_append_le _ _ _ hlen]
    apply fsLookup_runOps_not_touched
    intro op hop
    exact rebuildOps_prefix_safe live bundles op (List.take_subset n _ hop)
  · rw [rebuildOps]
    exact List.getLast?_concat _
  · rw [rebuildOps, List.dropLast_concat]
    exact rebuildOps_prefix_safe live bundles

/-! ## Witnesses -/

/-- Witness for C1 at a concrete filesystem, live path and interruption
point. -/
theorem c1_live_store_untouched_witness :
    2 < (rebuildOps "data/index" []).length ∧
    fsLookup (runOps [("data/index", emptyDB)]
        ((rebuildOps "data/index" []).take 2)) "data/index" =
      fsLookup [("data/index", emptyDB)] "data/index" :=
  ⟨by decide,
    (c1_live_store_untouched [("data/index", emptyDB)] "data/index" [] 2
      (by decide)).1⟩

/-- Witness for C2 at a concrete product and one-record changelog. -/
theorem c2_summary_per_timestamp_witness :
    index_changelog tProd [tRecD] emptyDB =
      .ok ⟨[], [tRowD], summaryRows tProd [tRecD]⟩ ∧
    ∀ row ∈ summaryRows tProd [tRecD],
      row.categories = joinSorted (catsAt [tRecD] row.timestamp) :=
  ⟨rfl,
    (c2_summary_per_timestamp tProd [tRecD] emptyDB
      ⟨[], [tRowD], summaryRows tProd [tRecD]⟩ rfl).2.2.2.1⟩

/-- Witness for C4 at a record carrying both bonus descriptors: the old
one's type is stored. -/
theorem c4_bonus_type_resolution_witness :
    tRecD.category = "download" ∧ tRecD.download_record = some tDl ∧
    changeRow tProd tRecD = .ok tRowD ∧ tRowD.bonus_type = some "artbook" :=
  ⟨rfl, rfl, rfl,
    (c4_bonus_type_resolution tProd tRecD tDl tRowD rfl rfl rfl).2.2.2
      tBonusNew tBonusOld rfl rfl⟩

/-- Witness for C6 at a concrete bundle list and a concrete record-list
permutation. -/
theorem c6_deterministic_rebuild_witness :
    processBundles [tData] emptyDB = processBundles [tData] emptyDB ∧
    (summaryRows tProd [tRecD, tRecO]).Perm (summaryRows tProd [tRecO, tRecD]) := by
  have h := c6_deterministic_rebuild [tData] (processBundles [tData] emptyDB)
    (processBundles [tData] emptyDB) rfl rfl
  exact ⟨h.1, (h.2 tProd [tRecD, tRecO] [tRecO, tRecD]
    (List.Perm.swap tRecO tRecD [])).1⟩

/-- Witness for C7 at a concrete change record. -/
theorem c7_serialized_roundtrip_witness :
    changeRow tProd tRecO = .ok tRowO ∧
    (tRowO.serialized_record = serializeRecord tRecO ∧
      deserializeRecord tRowO.serialized_record = some tRecO) :=
  ⟨rfl, c7_serialized_roundtrip tProd tRecO tRowO rfl⟩

/-- Witness for C9 at a record of the unknown category `galaxy`. -/
theorem c9_other_category_witness :
    tRecO.category ≠ "download" ∧ tRecO.category ≠ "property" ∧
    changeRow tProd tRecO = .ok tRowO ∧
    "galaxy" ∈ lookupCats (summarize [tRecO]) 7 := by
  have h := c9_other_category tProd tRecO (by decide) (by decide)
  exact ⟨by decide, by decide, h.1, h.2 [tRecO] (List.mem_singleton.mpr rfl)⟩

/-- Witness for C10 at a concrete one-record changelog. -/
theorem c10_one_row_per_record_witness :
    index_changelog tProd [tRecO] emptyDB =
      .ok ⟨[], [tRowO], summaryRows tProd [tRecO]⟩ ∧
    ∃ rows, indexRows tProd [tRecO] = .ok rows ∧ rows.length = 1 := by
  refine ⟨rfl, ?_⟩
  obtain ⟨rows, hrows, -, hlen, -, -⟩ :=
    c10_one_row_per_record tProd [tRecO] emptyDB
      ⟨[], [tRowO], summaryRows tProd [tRecO]⟩ rfl
  exact ⟨rows, hrows, hlen⟩
